import Mathlib

/-!
Verification of the gitlab-chat-community indexing and retrieval backend.

This file shallowly embeds the parts of the Python backend that the checked
properties are about:

* `backend/core/embedding.py` — deterministic point-id generation and the
  upsert semantics of `embed_chunks`;
* `backend/core/chunking.py`  — the semantic chunker, its fixed-size fallback
  and `chunk_comment`;
* `backend/core/retrieval.py` — content-priority weighting, dedup keys and
  `_rank_and_dedupe`;
* `backend/core/code_analysis.py` — `_validate_path` / `_read_file`;
* `backend/api/routes/projects.py` — the `index` / `sync` route guards;
* `backend/tasks/sync.py` and `backend/tasks/indexing.py` — status updates,
  the periodic stale-`syncing` recovery, the README hash comparison, and
  `_is_indexable_file`.

Python strings are Lean `String`s; Python `datetime`s are `Int` timestamps;
Python dicts holding chunk metadata are association lists over a small value
type.  External libraries are parameters of the embedding: the SHA-256 hex
digest is an opaque `String → String` argument and the `tiktoken` tokenizer is
a `Tokenizer` structure (an `encode`/`decode` pair).
-/

set_option maxRecDepth 100000

namespace GitlabChat

/-- A metadata value as it appears in the Python metadata dicts: either a
non-negative integer (GitLab ids, iids, line numbers) or a string. -/
inductive Val where
  | vNat : Nat → Val
  | vStr : String → Val
deriving DecidableEq, Repr

/-- Decimal digits of `n`, most significant first; fuel-based model of the
recursion `str(n) = str(n // 10) + str(n % 10)`.  The fuel is always at least
`n`, which suffices since `n / 10 < n` for `n ≥ 10`. -/
def decDigitsAux : Nat → Nat → List Char
  | 0, n => [Char.ofNat (48 + n % 10)]
  | fuel + 1, n =>
    if n < 10 then [Char.ofNat (48 + n)]
    else decDigitsAux fuel (n / 10) ++ [Char.ofNat (48 + n % 10)]

/-- Model of Python `str` on a non-negative `int`. -/
def pyStrNat (n : Nat) : String := String.mk (decDigitsAux n n)

/-- Rendering of a metadata value inside an f-string. -/
def Val.render : Val → String
  | .vNat n => pyStrNat n
  | .vStr s => s

/-- Chunk metadata: a Python dict with string keys. -/
def Meta := List (String × Val)

instance : DecidableEq Meta := inferInstanceAs (DecidableEq (List (String × Val)))

/-- `dict.get(k)` (no default): first binding of `k`, if any. -/
def metaGet (m : Meta) (k : String) : Option Val :=
  (m.find? (fun p => p.1 == k)).map (·.2)

/-- `Chunk` from `backend/core/chunking.py`: content, metadata, token count. -/
structure Chunk where
  content : String
  metadata : Meta
  token_count : Nat
deriving DecidableEq

/-! ## `EmbeddingService._generate_point_id` and `embed_chunks`
(`backend/core/embedding.py`). -/

/-- The entity component of the hash input:
`chunk.metadata.get('issue_id', chunk.metadata.get('mr_id',
chunk.metadata.get('file_path', '')))`. -/
def entityVal (c : Chunk) : Val :=
  (metaGet c.metadata "issue_id").getD
    ((metaGet c.metadata "mr_id").getD
      ((metaGet c.metadata "file_path").getD (.vStr "")))

/-- `chunk.metadata.get(k, '')` rendered inside the f-string. -/
def metaStr (c : Chunk) (k : String) : String :=
  ((metaGet c.metadata k).getD (.vStr "")).render

/-- The f-string
`f"{project_id}:{type}:{entity}:{content[:200]}"` hashed by
`_generate_point_id`. -/
def hashInput (c : Chunk) : String :=
  metaStr c "project_id" ++ ":" ++ metaStr c "type" ++ ":"
    ++ (entityVal c).render ++ ":" ++ c.content.take 200

/-- `_generate_point_id`: first 32 hex characters of the SHA-256 digest of
`hashInput`.  `sha256hex` is the (opaque) hex-digest function. -/
def generatePointId (sha256hex : String → String) (c : Chunk) : String :=
  (sha256hex (hashInput c)).take 32

/-- The payload stored with a vector point:
`{"content": ..., "token_count": ..., **chunk.metadata}`. -/
structure PointPayload where
  content : String
  token_count : Nat
  metadata : Meta
deriving DecidableEq

def chunkPayload (c : Chunk) : PointPayload :=
  ⟨c.content, c.token_count, c.metadata⟩

/-- The vector collection, keyed by point id (the vectors themselves play no
role in the verified properties). -/
def VectorStore := String → Option PointPayload

/-- A Qdrant upsert of a single point: replace whatever is stored at `id`. -/
def upsertPoint (store : VectorStore) (id : String) (p : PointPayload) : VectorStore :=
  fun k => if k = id then some p else store k

/-- The store after upserting one point per chunk, in list order (a later
chunk with the same id overwrites an earlier one, as in a Qdrant upsert). -/
def embedStore (sha256hex : String → String) : List Chunk → VectorStore → VectorStore
  | [], store => store
  | c :: cs, store =>
    embedStore sha256hex cs
      (upsertPoint store (generatePointId sha256hex c) (chunkPayload c))

/-- `EmbeddingService.embed_chunks`: compute the deterministic point ids and
upsert one point per chunk; returns the ids and the updated store. -/
def embedChunks (sha256hex : String → String) (chunks : List Chunk)
    (store : VectorStore) : List String × VectorStore :=
  (chunks.map (generatePointId sha256hex), embedStore sha256hex chunks store)

/-- The last payload written at key `k` by the upserts of `chunks`. -/
def lastWrite (sha256hex : String → String) : List Chunk → String → Option PointPayload
  | [], _ => none
  | c :: cs, k =>
    match lastWrite sha256hex cs k with
    | some p => some p
    | none =>
      if generatePointId sha256hex c = k then some (chunkPayload c) else none

theorem embedStore_char (sha : String → String) (chunks : List Chunk)
    (store : VectorStore) (k : String) :
    embedStore sha chunks store k
      = match lastWrite sha chunks k with
        | some p => some p
        | none => store k := by
  induction chunks generalizing store with
  | nil => rfl
  | cons c cs ih =>
    show embedStore sha cs _ k = _
    rw [ih]
    show _ = (match (match lastWrite sha cs k with
        | some p => some p
        | none =>
          if generatePointId sha c = k then some (chunkPayload c) else none) with
      | some p => some p
      | none => store k)
    cases lastWrite sha cs k with
    | some p => rfl
    | none =>
      by_cases h : generatePointId sha c = k
      · subst h
        simp [upsertPoint]
      · simp only [upsertPoint]
        rw [if_neg (fun hk : k = generatePointId sha c => h hk.symm), if_neg h]

theorem embedStore_idem (sha : String → String) (chunks : List Chunk)
    (store : VectorStore) :
    embedStore sha chunks (embedStore sha chunks store) = embedStore sha chunks store := by
  funext k
  rw [embedStore_char, embedStore_char]
  cases lastWrite sha chunks k <;> rfl

/-- C1: the point id of a chunk is the first 32 hex characters of the SHA-256
digest of `"{project_id}:{type}:{entity_id}:{content[:200]}"`, where the
entity id is the chunk's issue id, merge-request id, or file path from its
metadata (in that order of preference); consequently re-embedding the same
chunk list produces the same point ids and leaves the vector store unchanged
(upserts overwrite, they never create new points). -/
theorem point_id_deterministic_and_idempotent (sha256hex : String → String)
    (c : Chunk) (chunks : List Chunk) (store : VectorStore) :
    generatePointId sha256hex c
        = (sha256hex (metaStr c "project_id" ++ ":" ++ metaStr c "type" ++ ":"
            ++ (entityVal c).render ++ ":" ++ c.content.take 200)).take 32
      ∧ (embedChunks sha256hex chunks (embedChunks sha256hex chunks store).2).1
          = (embedChunks sha256hex chunks store).1
      ∧ (embedChunks sha256hex chunks (embedChunks sha256hex chunks store).2).2
          = (embedChunks sha256hex chunks store).2 :=
  ⟨rfl, rfl, embedStore_idem sha256hex chunks store⟩

/-! ## `ChunkingStrategy` (`backend/core/chunking.py`)

The `tiktoken` tokenizer is external to the repository, so the chunker is
parametrised by an `encode`/`decode` pair; token ids are `Nat`. -/

structure Tokenizer where
  encode : String → List Nat
  decode : List Nat → String

/-- Whitespace for Python `str.strip` and the `\s` class (ASCII range). -/
def pyIsSpace (c : Char) : Bool :=
  c == ' ' || c == '\t' || c == '\n' || c == '\r' || c == '\x0b' || c == '\x0c'

/-- Python `str.strip()`. -/
def pyStrip (s : String) : String :=
  String.mk (((s.data.dropWhile pyIsSpace).reverse.dropWhile pyIsSpace).reverse)

/-- Length of the `re` match of `\n\s*\n` starting at a position whose first
character is the already-consumed `'\n'`: greedily take the whitespace run
after it and backtrack to the last `'\n'` inside the run.  Returns the number
of characters consumed *after* the leading `'\n'`, or `none` if no match. -/
def blankSepTail (rest : List Char) : Option Nat :=
  let run := rest.takeWhile pyIsSpace
  match run.reverse.findIdx? (fun c => c == '\n') with
  | some j => some (run.length - j)
  | none => none

/-- `re.split(r"\n\s*\n", text)`: scan left to right, cutting at each
leftmost match.  Fuel-based recursion (the fuel is the remaining length). -/
def reSplitBlankAux : Nat → List Char → List Char → List (List Char)
  | 0, cs, acc => [acc.reverse ++ cs]
  | _ + 1, [], acc => [acc.reverse]
  | fuel + 1, c :: rest, acc =>
    if c = '\n' then
      match blankSepTail rest with
      | some consumed => acc.reverse :: reSplitBlankAux fuel (rest.drop consumed) []
      | none => reSplitBlankAux fuel rest (c :: acc)
    else reSplitBlankAux fuel rest (c :: acc)

def reSplitBlank (s : String) : List String :=
  (reSplitBlankAux s.data.length s.data []).map String.mk

/-- `ChunkingStrategy._count_tokens`. -/
def countTokens (tk : Tokenizer) (s : String) : Nat := (tk.encode s).length

/-- `ChunkingStrategy._get_overlap_text`: decode the last `chunk_overlap`
tokens of `text` (all of them when there are at most `chunk_overlap`; note
that Python's `tokens[-0:]` is the whole list when `chunk_overlap = 0`). -/
def getOverlapText (tk : Tokenizer) (chunk_overlap : Nat) (text : String) : String :=
  if text = "" then ""
  else
    let tokens := tk.encode text
    let overlapTokens :=
      if tokens.length > chunk_overlap then
        if chunk_overlap = 0 then tokens
        else tokens.drop (tokens.length - chunk_overlap)
      else tokens
    tk.decode overlapTokens

/-- One window of `ChunkingStrategy._split_large_text`; fuel-based model of
the `while start < len(tokens)` loop. -/
def splitLargeTextAux (tk : Tokenizer) (chunk_size chunk_overlap : Nat)
    (tokens : List Nat) (meta : Meta) : Nat → Nat → List Chunk
  | 0, _ => []
  | fuel + 1, start =>
    if start < tokens.length then
      let e := min (start + chunk_size) tokens.length
      let chunkTokens := (tokens.drop start).take (e - start)
      Chunk.mk (tk.decode chunkTokens) meta chunkTokens.length
        :: splitLargeTextAux tk chunk_size chunk_overlap tokens meta fuel
             (if e < tokens.length then e - chunk_overlap else e)
    else []

/-- `ChunkingStrategy._split_large_text`. -/
def splitLargeText (tk : Tokenizer) (chunk_size chunk_overlap : Nat)
    (text : String) (meta : Meta) : List Chunk :=
  let tokens := tk.encode text
  splitLargeTextAux tk chunk_size chunk_overlap tokens meta (tokens.length + 1) 0

/-- The loop state of `_semantic_chunk`: emitted chunks, current buffer and
its tracked token count. -/
structure SCState where
  chunks : List Chunk
  current : String
  currentTokens : Nat
deriving DecidableEq

/-- One iteration of the paragraph loop in `ChunkingStrategy._semantic_chunk`. -/
def semanticStep (tk : Tokenizer) (chunk_size chunk_overlap : Nat) (meta : Meta)
    (st : SCState) (para : String) : SCState :=
  let paraTokens := countTokens tk para
  if paraTokens > chunk_size then
    let st' :=
      if st.current ≠ "" then
        SCState.mk (st.chunks ++ [Chunk.mk (pyStrip st.current) meta st.currentTokens]) "" 0
      else st
    { st' with chunks := st'.chunks ++ splitLargeText tk chunk_size chunk_overlap para meta }
  else if st.currentTokens + paraTokens > chunk_size then
    let emitted :=
      if st.current ≠ "" then
        st.chunks ++ [Chunk.mk (pyStrip st.current) meta st.currentTokens]
      else st.chunks
    let overlapText := getOverlapText tk chunk_overlap st.current
    let newCurrent := if overlapText ≠ "" then overlapText ++ "\n\n" ++ para else para
    SCState.mk emitted newCurrent (countTokens tk newCurrent)
  else
    SCState.mk st.chunks
      (if st.current ≠ "" then st.current ++ "\n\n" ++ para else para)
      (st.currentTokens + paraTokens)

/-- `ChunkingStrategy._semantic_chunk`. -/
def semanticChunk (tk : Tokenizer) (chunk_size chunk_overlap : Nat)
    (text : String) (meta : Meta) : List Chunk :=
  if text = "" ∨ pyStrip text = "" then []
  else
    let paragraphs := ((reSplitBlank text).map pyStrip).filter (fun p => p ≠ "")
    let st := paragraphs.foldl (semanticStep tk chunk_size chunk_overlap meta)
      (SCState.mk [] "" 0)
    if pyStrip st.current ≠ "" then
      st.chunks ++ [Chunk.mk (pyStrip st.current) meta (countTokens tk st.current)]
    else st.chunks

/-- A GitLab note as consumed by `ChunkingStrategy.chunk_comment`. -/
structure PyComment where
  id : Nat
  body : String
  author_username : String
  created_at : String
  system : Bool
deriving DecidableEq

/-- The metadata dict built by `chunk_comment`. -/
def commentMeta (comment : PyComment) (parent_type : String) (parent_iid : Nat)
    (project_id : Nat) : Meta :=
  [("type", Val.vStr "comment"),
   ("parent_type", Val.vStr parent_type),
   ("parent_iid", Val.vNat parent_iid),
   ("project_id", Val.vNat project_id),
   ("comment_id", Val.vNat comment.id),
   ("author", Val.vStr comment.author_username),
   ("created_at", Val.vStr comment.created_at)]

/-- `ChunkingStrategy.chunk_comment`: skip system notes and empty bodies,
otherwise semantically chunk the body under `commentMeta`. -/
def chunkComment (tk : Tokenizer) (chunk_size chunk_overlap : Nat)
    (comment : PyComment) (parent_type : String) (parent_iid : Nat)
    (project_id : Nat) : List Chunk :=
  if comment.system then []
  else if comment.body = "" ∨ pyStrip comment.body = "" then []
  else
    semanticChunk tk chunk_size chunk_overlap comment.body
      (commentMeta comment parent_type parent_iid project_id)

/-- The character-level tokenizer (one token per Unicode scalar), used to
instantiate the abstract tokenizer on concrete inputs. -/
def charTok : Tokenizer :=
  ⟨fun s => s.data.map Char.toNat, fun ts => String.mk (ts.map Char.ofNat)⟩

theorem splitLargeTextAux_meta (tk : Tokenizer) (size ov : Nat) (tokens : List Nat)
    (meta : Meta) :
    ∀ fuel start c, c ∈ splitLargeTextAux tk size ov tokens meta fuel start →
      c.metadata = meta := by
  intro fuel
  induction fuel with
  | zero =>
    intro start c h
    exact absurd h (List.not_mem_nil c)
  | succ n ih =>
    intro start c h
    simp only [splitLargeTextAux] at h
    split at h
    · rcases List.mem_cons.mp h with h1 | h2
      · subst h1; rfl
      · exact ih _ c h2
    · exact absurd h (List.not_mem_nil c)

theorem splitLargeTextAux_token_le (tk : Tokenizer) (size ov : Nat)
    (tokens : List Nat) (meta : Meta) :
    ∀ fuel start c, c ∈ splitLargeTextAux tk size ov tokens meta fuel start →
      c.token_count ≤ size := by
  intro fuel
  induction fuel with
  | zero =>
    intro start c h
    exact absurd h (List.not_mem_nil c)
  | succ n ih =>
    intro start c h
    simp only [splitLargeTextAux] at h
    split at h
    · rcases List.mem_cons.mp h with h1 | h2
      · subst h1
        show (((tokens.drop start).take (min (start + size) tokens.length - start)).length) ≤ size
        simp only [List.length_take, List.length_drop]
        omega
      · exact ih _ c h2
    · exact absurd h (List.not_mem_nil c)

theorem splitLargeText_meta (tk : Tokenizer) (size ov : Nat) (text : String)
    (meta : Meta) (c : Chunk) (h : c ∈ splitLargeText tk size ov text meta) :
    c.metadata = meta :=
  splitLargeTextAux_meta tk size ov (tk.encode text) meta _ _ c h

theorem semanticStep_chunks_meta (tk : Tokenizer) (size ov : Nat) (meta : Meta)
    (st : SCState) (para : String)
    (hst : ∀ c ∈ st.chunks, c.metadata = meta) :
    ∀ c ∈ (semanticStep tk size ov meta st para).chunks, c.metadata = meta := by
  intro c hc
  simp only [semanticStep] at hc
  split at hc
  · by_cases h2 : st.current ≠ ""
    · simp only [if_pos h2] at hc
      rcases List.mem_append.mp hc with h | h
      · rcases List.mem_append.mp h with h' | h'
        · exact hst c h'
        · rw [List.mem_singleton.mp h']
      · exact splitLargeText_meta tk size ov para meta c h
    · simp only [if_neg h2] at hc
      rcases List.mem_append.mp hc with h | h
      · exact hst c h
      · exact splitLargeText_meta tk size ov para meta c h
  · split at hc
    · by_cases h2 : st.current ≠ ""
      · simp only [if_pos h2] at hc
        rcases List.mem_append.mp hc with h | h
        · exact hst c h
        · rw [List.mem_singleton.mp h]
      · simp only [if_neg h2] at hc
        exact hst c hc
    · exact hst c hc

theorem foldl_semanticStep_meta (tk : Tokenizer) (size ov : Nat) (meta : Meta) :
    ∀ (paras : List String) (st : SCState),
      (∀ c ∈ st.chunks, c.metadata = meta) →
      ∀ c ∈ (paras.foldl (semanticStep tk size ov meta) st).chunks,
        c.metadata = meta := by
  intro paras
  induction paras with
  | nil => intro st hst c hc; exact hst c hc
  | cons p ps ih =>
    intro st hst c hc
    exact ih (semanticStep tk size ov meta st p)
      (semanticStep_chunks_meta tk size ov meta st p hst) c hc

/-- Every chunk returned by `_semantic_chunk` carries (a copy of) the base
metadata dict passed in. -/
theorem semanticChunk_meta (tk : Tokenizer) (size ov : Nat) (text : String)
    (meta : Meta) (c : Chunk) (h : c ∈ semanticChunk tk size ov text meta) :
    c.metadata = meta := by
  simp only [semanticChunk] at h
  split at h
  · exact absurd h (List.not_mem_nil c)
  · split at h
    · rcases List.mem_append.mp h with h' | h'
      · exact foldl_semanticStep_meta tk size ov meta _ _ (by intro c hc; cases hc) c h'
      · rw [List.mem_singleton.mp h']
    · exact foldl_semanticStep_meta tk size ov meta _ _ (by intro c hc; cases hc) c h

theorem chunkComment_meta (tk : Tokenizer) (size ov : Nat) (comment : PyComment)
    (pt : String) (piid pid : Nat) (c : Chunk)
    (h : c ∈ chunkComment tk size ov comment pt piid pid) :
    c.metadata = commentMeta comment pt piid pid := by
  simp only [chunkComment] at h
  split at h
  · exact absurd h (List.not_mem_nil c)
  · split at h
    · exact absurd h (List.not_mem_nil c)
    · exact semanticChunk_meta tk size ov comment.body _ c h

/-- C3 (amended part): every chunk produced by the fixed-size token-window
fallback `_split_large_text` has `token_count ≤ chunk_size`. -/
theorem split_large_text_token_count_le_chunk_size (tk : Tokenizer)
    (chunk_size chunk_overlap : Nat) (text : String) (meta : Meta) (c : Chunk)
    (h : c ∈ splitLargeText tk chunk_size chunk_overlap text meta) :
    c.token_count ≤ chunk_size :=
  splitLargeTextAux_token_le tk chunk_size chunk_overlap (tk.encode text) meta _ _ c h

/-- The concrete input refuting C3 as stated: two 512-token paragraphs
followed by a 1-token paragraph (character-level tokenizer, default
`chunk_size = 512`, `chunk_overlap = 50`). -/
def cexText : String :=
  String.mk (List.replicate 512 'a') ++ "\n\n"
    ++ String.mk (List.replicate 512 'b') ++ "\n\nc"

/-- C3 (counterexample): with the default `chunk_size = 512` and
`chunk_overlap = 50`, `_semantic_chunk` emits a chunk whose `token_count`
exceeds `chunk_size`: the buffer restarted with the 50-token overlap tail plus
the separator and the next 512-token paragraph is recounted at 564 tokens and
emitted as-is. -/
theorem semantic_chunk_overlap_chunk_exceeds_chunk_size :
    ¬ (∀ c ∈ semanticChunk charTok 512 50 cexText [], c.token_count ≤ 512) := by
  decide

/-- C3 (witness for the amended theorem): the fallback bound evaluated on a
concrete oversized paragraph. -/
theorem split_large_text_token_count_witness :
    (Chunk.mk "aaaa" [] 4)
        ∈ splitLargeText charTok 4 2 (String.mk (List.replicate 6 'a')) []
      ∧ (Chunk.mk "aaaa" [] 4).token_count ≤ 4 :=
  ⟨by decide,
   split_large_text_token_count_le_chunk_size charTok 4 2
     (String.mk (List.replicate 6 'a')) [] (Chunk.mk "aaaa" [] 4) (by decide)⟩

theorem hashInput_comment (com : PyComment) (pt : String) (piid pid : Nat)
    (c : Chunk) (hm : c.metadata = commentMeta com pt piid pid) :
    hashInput c
      = pyStrNat pid ++ ":" ++ "comment" ++ ":" ++ "" ++ ":" ++ c.content.take 200 := by
  simp only [hashInput, metaStr, entityVal, hm]
  rfl

/-- C10: a comment chunk's metadata carries none of `issue_id`, `mr_id` or
`file_path`, so the entity component of its point id is the empty string; the
id therefore depends only on the project id, the literal type `comment`, and
the first 200 characters of the chunk content, and chunks of two distinct
comments in the same project that agree on those 200 characters get the same
point id. -/
theorem comment_point_id_ignores_comment_identity (sha256hex : String → String)
    (tk : Tokenizer) (size ov : Nat) (com1 com2 : PyComment) (pt1 pt2 : String)
    (piid1 piid2 pid : Nat) (c1 c2 : Chunk)
    (h1 : c1 ∈ chunkComment tk size ov com1 pt1 piid1 pid)
    (h2 : c2 ∈ chunkComment tk size ov com2 pt2 piid2 pid)
    (hc : c1.content.take 200 = c2.content.take 200) :
    entityVal c1 = Val.vStr ""
      ∧ hashInput c1
          = pyStrNat pid ++ ":" ++ "comment" ++ ":" ++ "" ++ ":" ++ c1.content.take 200
      ∧ generatePointId sha256hex c1 = generatePointId sha256hex c2 := by
  have hm1 := chunkComment_meta tk size ov com1 pt1 piid1 pid c1 h1
  have hm2 := chunkComment_meta tk size ov com2 pt2 piid2 pid c2 h2
  have hh1 := hashInput_comment com1 pt1 piid1 pid c1 hm1
  have hh2 := hashInput_comment com2 pt2 piid2 pid c2 hm2
  refine ⟨?_, hh1, ?_⟩
  · simp only [entityVal, hm1]
    rfl
  · simp only [generatePointId, hh1, hh2, hc]

def demoComment1 : PyComment := ⟨101, "hello", "alice", "2024-01-01", false⟩

def demoComment2 : PyComment := ⟨202, "hello", "bob", "2024-01-02", false⟩

def demoCommentChunk1 : Chunk :=
  Chunk.mk "hello" (commentMeta demoComment1 "issue" 3 7) 5

def demoCommentChunk2 : Chunk :=
  Chunk.mk "hello" (commentMeta demoComment2 "merge_request" 4 7) 5

/-- C10 (witness): two distinct comments of project 7 with the same body
produce chunks with the same point id. -/
theorem comment_point_id_witness :
    demoCommentChunk1 ∈ chunkComment charTok 512 50 demoComment1 "issue" 3 7
      ∧ demoCommentChunk2
          ∈ chunkComment charTok 512 50 demoComment2 "merge_request" 4 7
      ∧ demoCommentChunk1.content.take 200 = demoCommentChunk2.content.take 200
      ∧ generatePointId id demoCommentChunk1 = generatePointId id demoCommentChunk2 :=
  ⟨by decide, by decide, rfl,
   (comment_point_id_ignores_comment_identity id charTok 512 50 demoComment1
      demoComment2 "issue" "merge_request" 3 4 7 demoCommentChunk1 demoCommentChunk2
      (by decide) (by decide) rfl).2.2⟩

/-! ## `HybridRetriever` (`backend/core/retrieval.py`)

Scores are modelled as rationals; only comparisons and the priority-boost
multiplication matter for the verified properties. -/

structure RetrievalResult where
  id : Option String
  score : ℚ
  content : String
  metadata : Meta
deriving DecidableEq

/-- An f-string interpolation of `dict.get(k)`: Python renders a missing key
(`None`) as `"None"`. -/
def optValRender : Option Val → String
  | none => "None"
  | some v => v.render

/-- The dedup key of `_rank_and_dedupe`; `uniqueLen` is `len(unique_results)`
at the time the key is computed (the positional fallback for records without
an `id`). -/
def dedupKeyAt (r : RetrievalResult) (uniqueLen : Nat) : String :=
  if metaGet r.metadata "type" = some (Val.vStr "issue") then
    "issue_" ++ optValRender (metaGet r.metadata "project_id") ++ "_"
      ++ optValRender (metaGet r.metadata "issue_iid")
  else if metaGet r.metadata "type" = some (Val.vStr "merge_request") then
    "mr_" ++ optValRender (metaGet r.metadata "project_id") ++ "_"
      ++ optValRender (metaGet r.metadata "mr_iid")
  else if metaGet r.metadata "type" = some (Val.vStr "code") then
    "code_" ++ optValRender (metaGet r.metadata "project_id") ++ "_"
      ++ optValRender (metaGet r.metadata "file_path") ++ "_"
      ++ ((metaGet r.metadata "start_line").getD (Val.vNat 0)).render
  else if metaGet r.metadata "type" = some (Val.vStr "comment") then
    "comment_" ++ optValRender (metaGet r.metadata "comment_id")
  else
    r.id.getD (pyStrNat uniqueLen)

/-- The canonical dedup key (position-independent). -/
def dedupKey (r : RetrievalResult) : String := dedupKeyAt r 0

/-- A record whose dedup key does not depend on its position: its type is one
of the four recognised content types, or it carries an `id`. -/
def hasStableKey (r : RetrievalResult) : Bool :=
  r.id.isSome
    || decide (metaGet r.metadata "type" = some (Val.vStr "issue"))
    || decide (metaGet r.metadata "type" = some (Val.vStr "merge_request"))
    || decide (metaGet r.metadata "type" = some (Val.vStr "code"))
    || decide (metaGet r.metadata "type" = some (Val.vStr "comment"))

theorem dedupKeyAt_stable (r : RetrievalResult) (h : hasStableKey r = true)
    (n : Nat) : dedupKeyAt r n = dedupKey r := by
  by_cases h1 : metaGet r.metadata "type" = some (Val.vStr "issue")
  · simp [dedupKeyAt, dedupKey, h1]
  · by_cases h2 : metaGet r.metadata "type" = some (Val.vStr "merge_request")
    · simp [dedupKeyAt, dedupKey, h1, h2]
    · by_cases h3 : metaGet r.metadata "type" = some (Val.vStr "code")
      · simp [dedupKeyAt, dedupKey, h1, h2, h3]
      · by_cases h4 : metaGet r.metadata "type" = some (Val.vStr "comment")
        · simp [dedupKeyAt, dedupKey, h1, h2, h3, h4]
        · simp only [hasStableKey, h1, h2, h3, h4, decide_False, Bool.or_false] at h
          cases hid : r.id with
          | none => rw [hid] at h; cases h
          | some s => simp [dedupKeyAt, dedupKey, h1, h2, h3, h4, hid]

/-- The Python stable descending sort key: `a` may stay before `b` iff
`b.score ≤ a.score`. -/
def scoreDescBool (a b : RetrievalResult) : Bool := decide (b.score ≤ a.score)

/-- The dedup loop of `_rank_and_dedupe`: `seen` is the `seen_ids` set and
`n` is `len(unique_results)`. -/
def dedupeAux : List RetrievalResult → List String → Nat → List RetrievalResult
  | [], _, _ => []
  | r :: rest, seen, n =>
    if dedupKeyAt r n ∈ seen then dedupeAux rest seen n
    else r :: dedupeAux rest (dedupKeyAt r n :: seen) (n + 1)

/-- `HybridRetriever._rank_and_dedupe`: stable sort by descending score, then
keep the first record of each dedup key. -/
def rankAndDedupe (results : List RetrievalResult) : List RetrievalResult :=
  dedupeAux (results.mergeSort scoreDescBool) [] 0

/-- The index a key ends up with in the Python dict comprehension
`{t: ... for idx, t in enumerate(priority)}` (the last occurrence wins). -/
def lastIdxOf (l : List String) (t : String) : Option Nat :=
  match l.reverse.findIdx? (fun s => s == t) with
  | some j => some (l.length - 1 - j)
  | none => none

/-- `1.0 + 0.1 * (len(priority) - idx)`, or `1.0` for types not listed. -/
def priorityBoost (priority : List String) (t : String) : ℚ :=
  match lastIdxOf priority t with
  | some i => 1 + (1 / 10) * ((priority.length : ℚ) - (i : ℚ))
  | none => 1

/-- The boost applied to one record:
`priority_boost.get(result.get("metadata", {}).get("type", ""), 1.0)`. -/
def resultTypeBoost (priority : List String) (r : RetrievalResult) : ℚ :=
  match metaGet r.metadata "type" with
  | some (Val.vStr s) => priorityBoost priority s
  | some (Val.vNat _) => 1
  | none => priorityBoost priority ""

/-- `HybridRetriever._apply_content_priority`. -/
def applyContentPriority (results : List RetrievalResult)
    (priority : List String) : List RetrievalResult :=
  if priority = [] then results
  else results.map (fun r => { r with score := r.score * resultTypeBoost priority r })

/-- The tail of `HybridRetriever._execute_plan`: weight by content priority,
rank-and-dedupe, truncate to `top_k`. -/
def planFinalResults (results : List RetrievalResult) (priority : List String)
    (top_k : Nat) : List RetrievalResult :=
  (rankAndDedupe (applyContentPriority results priority)).take top_k

theorem dedupeAux_sublist : ∀ (rs : List RetrievalResult) seen n,
    List.Sublist (dedupeAux rs seen n) rs := by
  intro rs
  induction rs with
  | nil => intro seen n; exact List.Sublist.refl []
  | cons r rest ih =>
    intro seen n
    simp only [dedupeAux]
    split
    · exact (ih _ _).cons r
    · exact (ih _ _).cons₂ r

theorem dedupeAux_keys (rs : List RetrievalResult) :
    ∀ seen n, (∀ r ∈ rs, hasStableKey r = true) →
      ((dedupeAux rs seen n).map dedupKey).Nodup
        ∧ ∀ k ∈ (dedupeAux rs seen n).map dedupKey, k ∉ seen := by
  induction rs with
  | nil =>
    intro seen n _
    exact ⟨List.nodup_nil, by intro k hk; cases hk⟩
  | cons r rest ih =>
    intro seen n hstable
    simp only [dedupeAux]
    rw [dedupKeyAt_stable r (hstable r (List.mem_cons_self r rest)) n]
    split
    next hin =>
      exact ih seen n (fun x hx => hstable x (List.mem_cons_of_mem r hx))
    next hnot =>
      obtain ⟨hnd, hfresh⟩ :=
        ih (dedupKey r :: seen) (n + 1)
          (fun x hx => hstable x (List.mem_cons_of_mem r hx))
      constructor
      · simp only [List.map_cons, List.nodup_cons]
        exact ⟨fun hmem => (hfresh _ hmem) (List.mem_cons_self _ _), hnd⟩
      · intro k hk
        simp only [List.map_cons, List.mem_cons] at hk
        rcases hk with hk | hk
        · subst hk; exact hnot
        · exact fun hks => (hfresh k hk) (List.mem_cons_of_mem _ hks)

theorem dedupeAux_max_score (rs : List RetrievalResult) :
    ∀ seen n, (∀ r ∈ rs, hasStableKey r = true) →
      rs.Pairwise (fun a b => b.score ≤ a.score) →
      ∀ r ∈ dedupeAux rs seen n,
        dedupKey r ∉ seen
          ∧ ∀ s ∈ rs, dedupKey s = dedupKey r → s.score ≤ r.score := by
  induction rs with
  | nil => intro seen n _ _ r hr; cases hr
  | cons x rest ih =>
    intro seen n hstable hsorted r hr
    simp only [dedupeAux] at hr
    rw [dedupKeyAt_stable x (hstable x (List.mem_cons_self x rest)) n] at hr
    have hhead := (List.pairwise_cons.mp hsorted).1
    have hsorted' := (List.pairwise_cons.mp hsorted).2
    have hstable' : ∀ y ∈ rest, hasStableKey y = true :=
      fun y hy => hstable y (List.mem_cons_of_mem x hy)
    split at hr
    next hin =>
      obtain ⟨hfresh, hmax⟩ := ih seen n hstable' hsorted' r hr
      refine ⟨hfresh, ?_⟩
      intro s hs hkey
      rcases List.mem_cons.mp hs with hs | hs
      · subst hs; exact absurd (hkey ▸ hin) hfresh
      · exact hmax s hs hkey
    next hin =>
      rcases List.mem_cons.mp hr with hr | hr
      · subst hr
        refine ⟨hin, ?_⟩
        intro s hs hkey
        rcases List.mem_cons.mp hs with hs | hs
        · subst hs; exact le_refl _
        · exact hhead s hs
      · obtain ⟨hfresh, hmax⟩ :=
          ih (dedupKey x :: seen) (n + 1) hstable' hsorted' r hr
        refine ⟨fun hks => hfresh (List.mem_cons_of_mem _ hks), ?_⟩
        intro s hs hkey
        rcases List.mem_cons.mp hs with hs | hs
        · subst hs
          exact absurd (hkey ▸ List.mem_cons_self (dedupKey s) seen) hfresh
        · exact hmax s hs hkey

/-- C6: the final result list of `_execute_plan` (content-priority weighting,
then `_rank_and_dedupe`, then `[:top_k]`) has pairwise-distinct dedup keys,
is ordered by descending score, has length at most `top_k`, and keeps for
each key the highest-scoring instance among the weighted results.  The
hypothesis excludes records whose dedup key falls back to the position
counter (an unrecognised type together with a missing record id). -/
theorem hybrid_retriever_final_results (results : List RetrievalResult)
    (priority : List String) (top_k : Nat)
    (hstable : ∀ r ∈ applyContentPriority results priority, hasStableKey r = true) :
    ((planFinalResults results priority top_k).map dedupKey).Nodup
      ∧ (planFinalResults results priority top_k).Pairwise
          (fun a b => b.score ≤ a.score)
      ∧ (planFinalResults results priority top_k).length ≤ top_k
      ∧ ∀ r ∈ planFinalResults results priority top_k,
          ∀ s ∈ applyContentPriority results priority,
            dedupKey s = dedupKey r → s.score ≤ r.score := by
  have hperm : List.Perm
      ((applyContentPriority results priority).mergeSort scoreDescBool)
      (applyContentPriority results priority) :=
    List.mergeSort_perm (applyContentPriority results priority) scoreDescBool
  have hstable' : ∀ r ∈ (applyContentPriority results priority).mergeSort scoreDescBool,
      hasStableKey r = true :=
    fun r hr => hstable r (hperm.mem_iff.mp hr)
  have hsortedB := @List.sorted_mergeSort RetrievalResult scoreDescBool
    (by intro a b c hab hbc
        simp only [scoreDescBool, decide_eq_true_eq] at *
        exact le_trans hbc hab)
    (by intro a b
        simp only [scoreDescBool]
        rcases le_total b.score a.score with h | h <;> simp [h])
    (applyContentPriority results priority)
  have hsorted : ((applyContentPriority results priority).mergeSort
      scoreDescBool).Pairwise (fun a b => b.score ≤ a.score) :=
    hsortedB.imp (fun h => by
      simpa only [scoreDescBool, decide_eq_true_eq] using h)
  have hsub : List.Sublist
      (dedupeAux ((applyContentPriority results priority).mergeSort
        scoreDescBool) [] 0)
      ((applyContentPriority results priority).mergeSort scoreDescBool) :=
    dedupeAux_sublist _ [] 0
  have htake : List.Sublist (planFinalResults results priority top_k)
      (dedupeAux ((applyContentPriority results priority).mergeSort
          scoreDescBool) [] 0) :=
    List.take_sublist top_k _
  refine ⟨?_, ?_, ?_, ?_⟩
  · exact ((dedupeAux_keys _ [] 0 hstable').1).sublist (htake.map dedupKey)
  · exact ((hsorted.sublist hsub).sublist htake)
  · exact List.length_take_le top_k _
  · intro r hr s hs hkey
    have hr' : r ∈ dedupeAux ((applyContentPriority results priority).mergeSort
        scoreDescBool) [] 0 := htake.mem hr
    have hmax := (dedupeAux_max_score _ [] 0 hstable' hsorted r hr').2
    exact hmax s (hperm.mem_iff.mpr hs) hkey

def demoIssueHit1 : RetrievalResult :=
  ⟨some "p1", 3, "Issue #2: login broken",
   [("type", Val.vStr "issue"), ("project_id", Val.vNat 1),
    ("issue_iid", Val.vNat 2)]⟩

def demoIssueHit2 : RetrievalResult :=
  ⟨some "p2", 1, "stale copy of issue #2",
   [("type", Val.vStr "issue"), ("project_id", Val.vNat 1),
    ("issue_iid", Val.vNat 2)]⟩

def demoCodeHit : RetrievalResult :=
  ⟨some "p3", 2, "def login(): ...",
   [("type", Val.vStr "code"), ("project_id", Val.vNat 1),
    ("file_path", Val.vStr "auth.py"), ("start_line", Val.vNat 10)]⟩

/-- C6 (witness): the dedup/rank/truncate guarantees evaluated on a concrete
result list containing a duplicate issue hit. -/
theorem hybrid_retriever_final_results_witness :
    ((planFinalResults [demoIssueHit1, demoIssueHit2, demoCodeHit]
        ["issue"] 10).map dedupKey).Nodup
      ∧ (planFinalResults [demoIssueHit1, demoIssueHit2, demoCodeHit]
          ["issue"] 10).Pairwise (fun a b => b.score ≤ a.score)
      ∧ (planFinalResults [demoIssueHit1, demoIssueHit2, demoCodeHit]
          ["issue"] 10).length ≤ 10
      ∧ ∀ r ∈ planFinalResults [demoIssueHit1, demoIssueHit2, demoCodeHit]
          ["issue"] 10,
          ∀ s ∈ applyContentPriority [demoIssueHit1, demoIssueHit2, demoCodeHit]
            ["issue"],
            dedupKey s = dedupKey r → s.score ≤ r.score :=
  hybrid_retriever_final_results [demoIssueHit1, demoIssueHit2, demoCodeHit]
    ["issue"] 10 (by decide)

/-! ## `CodeAnalysisAgent._validate_path` and `_read_file`
(`backend/core/code_analysis.py`)

Filesystem paths are modelled as lists of components of the already-resolved
absolute path (no symlinks). -/

/-- Python `str.split("/")`, written over the character list so that it
evaluates inside the kernel. -/
def splitSlashAux : List Char → List Char → List String
  | [], acc => [String.mk acc.reverse]
  | c :: rest, acc =>
    if c = '/' then String.mk acc.reverse :: splitSlashAux rest []
    else splitSlashAux rest (c :: acc)

def splitSlash (s : String) : List String := splitSlashAux s.data []

/-- Python `str.startswith` / `Path` string-prefix comparison. -/
def pyStartsWith (s pre : String) : Bool := pre.data.isPrefixOf s.data

/-- `Path.resolve()`: process `.`, empty and `..` components; the accumulator
holds the resolved components in reverse. -/
def resolveParts : List String → List String → List String
  | [], acc => acc.reverse
  | c :: rest, acc =>
    if c = "." ∨ c = "" then resolveParts rest acc
    else if c = ".." then resolveParts rest (acc.drop 1)
    else resolveParts rest (c :: acc)

/-- `repo_path / file_path` (Python `Path.__truediv__`): an absolute
`file_path` replaces the base. -/
def joinPath (repo : List String) (fp : String) : List String :=
  if pyStartsWith fp "/" then splitSlash (fp.drop 1) else repo ++ splitSlash fp

/-- `full_path.parents`: every proper ancestor, root included. -/
def parentsList (ps : List String) : List (List String) :=
  (List.range ps.length).map (fun k => ps.take k)

/-- `"/".join` of the components. -/
def joinComponents : List String → String
  | [] => ""
  | [s] => s
  | s :: rest => s ++ "/" ++ joinComponents rest

/-- `str(path)` for an absolute path. -/
def renderAbs (ps : List String) : String := "/" ++ joinComponents ps

/-- `CodeAnalysisAgent._validate_path`: accept when the resolved repo root is
among the parents of the resolved target or equal to it, or — the fallback —
when `str(full_path)` merely starts with `str(repo_path.resolve())`. -/
def validatePath (repoResolved : List String) (file_path : String) :
    Option (List String) :=
  let full := resolveParts (joinPath repoResolved file_path) []
  if repoResolved ∈ parentsList full ∨ full = repoResolved then some full
  else if pyStartsWith (renderAbs full) (renderAbs repoResolved) then some full
  else none

inductive ToolOutcome where
  | errorMsg (msg : String)
  | readsFrom (resolved : List String)
deriving DecidableEq

/-- The path-dependent head of `_read_file` (and `_list_directory`): either
the error string returned to the model, or the resolved path the tool goes on
to access. -/
def readFileTarget (repoResolved : List String) (file_path : String) :
    ToolOutcome :=
  match validatePath repoResolved file_path with
  | none => .errorMsg ("Error: Invalid path - " ++ file_path)
  | some full => .readsFrom full

/-- C4: the `startswith` fallback of `_validate_path` accepts a path that
resolves into the sibling directory `repos/1234` when the repo root is
`repos/123`, because `"/app/repos/1234/secret.txt"` starts with
`"/app/repos/123"` as a string; `_read_file` then goes on to read the file
outside the repo instead of returning an error string. -/
theorem validate_path_accepts_prefix_sibling :
    readFileTarget ["app", "repos", "123"] "../1234/secret.txt"
        = ToolOutcome.readsFrom ["app", "repos", "1234", "secret.txt"]
      ∧ ¬ (["app", "repos", "123"]
              ∈ parentsList ["app", "repos", "1234", "secret.txt"]
            ∨ ["app", "repos", "1234", "secret.txt"] = ["app", "repos", "123"]) := by
  decide

/-! ## `_is_indexable_file` (`backend/tasks/indexing.py`; the copy in
`backend/tasks/sync.py` is identical up to check order). -/

/-- A file met during the code walk: its path components relative to the repo
root, and its `stat().st_size` (`none` models an `OSError`). -/
structure RepoFile where
  relParts : List String
  size : Option Nat
deriving DecidableEq

def fileName (f : RepoFile) : String := (f.relParts.getLast?).getD ""

/-- `str.rfind('.')`: index of the last `'.'`, scanning with a running
position. -/
def rfindDotAux : List Char → Nat → Option Nat
  | [], _ => none
  | c :: rest, idx =>
    match rfindDotAux rest (idx + 1) with
    | some j => some j
    | none => if c = '.' then some idx else none

def rfindDot (l : List Char) : Option Nat := rfindDotAux l 0

/-- `PurePath.suffix`: the extension of the final component, empty when the
only dot is leading or trailing. -/
def pathSuffix (name : String) : String :=
  match rfindDot name.data with
  | some i =>
    if 0 < i ∧ i < name.length - 1 then String.mk (name.data.drop i) else ""
  | none => ""

def skipDirs : List String :=
  [".git", "node_modules", "__pycache__", "venv", ".venv", "dist", "build",
   ".next", "coverage", ".cache", "vendor", "target"]

def skipExtensions : List String :=
  [".pyc", ".pyo", ".so", ".dll", ".exe", ".bin",
   ".jpg", ".jpeg", ".png", ".gif", ".ico", ".svg",
   ".woff", ".woff2", ".ttf", ".eot",
   ".mp3", ".mp4", ".avi", ".mov",
   ".pdf", ".doc", ".docx", ".xls", ".xlsx",
   ".zip", ".tar", ".gz", ".rar", ".7z",
   ".lock", ".min.js", ".min.css"]

/-- Python `str.lower` (ASCII). -/
def pyToLower (s : String) : String := String.mk (s.data.map Char.toLower)

/-- `_is_indexable_file`. -/
def isIndexableFile (f : RepoFile) : Bool :=
  if f.relParts.any (fun part => skipDirs.contains part) then false
  else if skipExtensions.contains (pyToLower (pathSuffix (fileName f))) then false
  else
    match f.size with
    | none => false
    | some sz =>
      if sz > 500000 then false
      else if pyStartsWith (fileName f) "." then false
      else true

theorem rfindDotAux_none (l : List Char) :
    ∀ idx, rfindDotAux l idx = none → '.' ∉ l := by
  induction l with
  | nil => intro idx _ h; cases h
  | cons c rest ih =>
    intro idx h
    simp only [rfindDotAux] at h
    cases hr : rfindDotAux rest (idx + 1) with
    | some j => rw [hr] at h; cases h
    | none =>
      rw [hr] at h
      intro hmem
      rcases List.mem_cons.mp hmem with hc | hc
      · rw [if_pos hc.symm] at h; cases h
      · exact ih (idx + 1) hr hc

theorem rfindDotAux_ge (l : List Char) :
    ∀ idx j, rfindDotAux l idx = some j → idx ≤ j := by
  induction l with
  | nil => intro idx j h; cases h
  | cons c rest ih =>
    intro idx j h
    simp only [rfindDotAux] at h
    cases hr : rfindDotAux rest (idx + 1) with
    | some j2 =>
      rw [hr] at h
      injection h with hj
      subst hj
      exact le_trans (Nat.le_succ idx) (ih (idx + 1) _ hr)
    | none =>
      rw [hr] at h
      by_cases hc : c = '.'
      · rw [if_pos hc] at h
        injection h with hj
        omega
      · rw [if_neg hc] at h
        cases h

theorem rfindDotAux_no_dot_after (l : List Char) :
    ∀ idx j, rfindDotAux l idx = some j → '.' ∉ l.drop (j - idx + 1) := by
  induction l with
  | nil => intro idx j h; cases h
  | cons c rest ih =>
    intro idx j h
    simp only [rfindDotAux] at h
    cases hr : rfindDotAux rest (idx + 1) with
    | some j2 =>
      rw [hr] at h
      injection h with hj
      subst hj
      have hge := rfindDotAux_ge rest (idx + 1) j2 hr
      have hdrop : (c :: rest).drop (j2 - idx + 1) = rest.drop (j2 - (idx + 1) + 1) := by
        have heq : j2 - idx + 1 = (j2 - (idx + 1) + 1) + 1 := by omega
        rw [heq, List.drop_succ_cons]
      rw [hdrop]
      exact ih (idx + 1) j2 hr
    | none =>
      rw [hr] at h
      by_cases hc : c = '.'
      · rw [if_pos hc] at h
        injection h with hj
        rw [← hj]
        have hdrop : (c :: rest).drop (idx - idx + 1) = rest := by
          rw [Nat.sub_self]
          rfl
        rw [hdrop]
        exact rfindDotAux_none rest (idx + 1) hr
      · rw [if_neg hc] at h
        cases h

/-- The suffix computed by `PurePath.suffix` contains no dot after its leading
one, so the entries `".min.js"` and `".min.css"` of `skip_extensions` can
never be matched. -/
theorem pathSuffix_single_dot (name : String) :
    pathSuffix name ≠ ".min.js" ∧ pathSuffix name ≠ ".min.css" := by
  have key : ∀ ext : String, '.' ∈ ext.data.drop 1 → pathSuffix name ≠ ext := by
    intro ext hdot heq
    unfold pathSuffix at heq
    cases hr : rfindDot name.data with
    | none =>
      rw [hr] at heq
      have heq2 : ("" : String) = ext := heq
      subst heq2
      exact absurd hdot (by decide)
    | some i =>
      rw [hr] at heq
      have heq2 : (if 0 < i ∧ i < name.length - 1
          then String.mk (name.data.drop i) else "") = ext := heq
      by_cases hcond : 0 < i ∧ i < name.length - 1
      · rw [if_pos hcond] at heq2
        have hdata : name.data.drop i = ext.data := by rw [← heq2]
        have hafter : '.' ∉ name.data.drop (i - 0 + 1) :=
          rfindDotAux_no_dot_after name.data 0 i hr
        have hdd : name.data.drop (i + 1) = ext.data.drop 1 := by
          rw [← hdata, List.drop_drop]
        rw [Nat.sub_zero, hdd] at hafter
        exact hafter hdot
      · rw [if_neg hcond] at heq2
        subst heq2
        exact absurd hdot (by decide)
  exact ⟨key ".min.js" (by decide), key ".min.css" (by decide)⟩

/-- C8: a minified file `app.min.js` (small, not hidden, in no skipped
directory) is indexable according to the code even though `".min.js"` is
listed in `skip_extensions`: `Path.suffix` is only the last extension
(`".js"`), so the `".min.js"` and `".min.css"` entries are dead. -/
theorem min_js_skip_entry_is_dead :
    isIndexableFile ⟨["app.min.js"], some 100⟩ = true
      ∧ ".min.js" ∈ skipExtensions
      ∧ ".min.css" ∈ skipExtensions
      ∧ pathSuffix "app.min.js" = ".js"
      ∧ ∀ name : String,
          pathSuffix name ≠ ".min.js" ∧ pathSuffix name ≠ ".min.css" :=
  ⟨by decide, by decide, by decide, by decide, pathSuffix_single_dot⟩

/-! ## Projects, route guards and status updates
(`backend/api/routes/projects.py`, `backend/tasks/sync.py`,
`backend/tasks/indexing.py`, `backend/db/repositories.py`). -/

structure ProjectRow where
  id : Nat
  gitlab_id : Nat
  is_indexed : Bool
  is_selected : Bool
  indexing_status : String
  indexing_error : Option String
  last_indexed_at : Option Int
  last_indexed_commit : Option String
deriving DecidableEq

inductive RouteReply where
  | httpError (code : Nat) (detail : String)
  | reply (status : String) (mode : Option String)
deriving DecidableEq

inductive QueuedTask where
  | indexProject (project_id : Nat)
  | syncProject (project_id : Nat)
deriving DecidableEq

/-- A relational write the route handler itself performs (both index/sync
handlers only read the project row). -/
inductive DbWrite where
  | statusWrite (project_id : Nat) (status : String)
deriving DecidableEq

/-- `trigger_indexing` (`POST /projects/{id}/index`): 404 for a missing
project, the `already_indexing` guard, or enqueue `index_project`. -/
def triggerIndexing (project : Option ProjectRow) (project_id : Nat) :
    RouteReply × List QueuedTask × List DbWrite :=
  match project with
  | none => (.httpError 404 "Project not found", [], [])
  | some p =>
    if p.indexing_status = "indexing" ∨ p.indexing_status = "syncing" then
      (.reply "already_indexing" none, [], [])
    else (.reply "started" (some "full"), [.indexProject project_id], [])

/-- `trigger_sync` (`POST /projects/{id}/sync`). -/
def triggerSync (project : Option ProjectRow) (project_id : Nat) :
    RouteReply × List QueuedTask × List DbWrite :=
  match project with
  | none => (.httpError 404 "Project not found", [], [])
  | some p =>
    if p.indexing_status = "indexing" ∨ p.indexing_status = "syncing" then
      (.reply "already_indexing" none, [], [])
    else
      (.reply "started" (some (if p.is_indexed then "incremental" else "full")),
       [.syncProject project_id], [])

/-- C5: when a project's status is `indexing` or `syncing`, the index and
sync endpoints reply `already_indexing`, enqueue no task and write nothing —
project and manifest state are unchanged. -/
theorem already_indexing_guard (p : ProjectRow) (pid : Nat)
    (h : p.indexing_status = "indexing" ∨ p.indexing_status = "syncing") :
    triggerIndexing (some p) pid = (.reply "already_indexing" none, [], [])
      ∧ triggerSync (some p) pid = (.reply "already_indexing" none, [], []) := by
  constructor
  · simp only [triggerIndexing, if_pos h]
  · simp only [triggerSync, if_pos h]

def demoSyncingProject : ProjectRow :=
  ⟨3, 30, true, true, "syncing", none, some 500, some "abc"⟩

/-- C5 (witness): the guard evaluated on a concrete `syncing` project. -/
theorem already_indexing_guard_witness :
    triggerIndexing (some demoSyncingProject) 3
        = (.reply "already_indexing" none, [], [])
      ∧ triggerSync (some demoSyncingProject) 3
          = (.reply "already_indexing" none, [], []) :=
  already_indexing_guard demoSyncingProject 3 (Or.inr rfl)

/-! ### `sync_all_indexed_projects` (`backend/tasks/sync.py`) -/

/-- The filter of the stale-recovery query: `is_indexed`,
`indexing_status = 'syncing'`, `last_indexed_at < now − 2 min` (an SQL
comparison, false on NULL).  Times are epoch seconds. -/
def isStaleSyncing (now : Int) (p : ProjectRow) : Bool :=
  p.is_indexed && p.indexing_status == "syncing"
    && (match p.last_indexed_at with
        | some t => decide (t < now - 120)
        | none => false)

/-- The filter of the main query: indexed projects whose status is
`completed` or `error`. -/
def isIndexedDone (p : ProjectRow) : Bool :=
  p.is_indexed && (p.indexing_status == "completed" || p.indexing_status == "error")

/-- One run of the periodic `sync_all_indexed_projects` task: queue every
indexed completed/error project, reset stale `syncing` rows to `completed`
and queue them too.  Returns the updated rows and the queued project ids. -/
def syncAllIndexedProjects (now : Int) (projects : List ProjectRow) :
    List ProjectRow × List Nat :=
  ((projects.map (fun p =>
      if isStaleSyncing now p then { p with indexing_status := "completed" } else p)),
   ((projects.filter isIndexedDone).map (fun p => p.id))
     ++ ((projects.filter (isStaleSyncing now)).map (fun p => p.id)))

def stuckUnindexedProject : ProjectRow :=
  ⟨5, 50, false, false, "syncing", none, some 0, none⟩

/-- C7 (counterexample): a project stuck in `syncing` with
`last_indexed_at` far older than 2 minutes but `is_indexed = false` is
neither reset to `completed` nor queued — the recovery query also requires
`is_indexed`, which the claim omits. -/
theorem stale_recovery_skips_unindexed_project :
    stuckUnindexedProject.indexing_status = "syncing"
      ∧ stuckUnindexedProject.last_indexed_at = some 0
      ∧ (0 : Int) < 1000 - 120
      ∧ (syncAllIndexedProjects 1000 [stuckUnindexedProject]).1
          = [stuckUnindexedProject]
      ∧ (syncAllIndexedProjects 1000 [stuckUnindexedProject]).2 = [] := by
  decide

/-- C7 (amended): for an **indexed** project stuck in `syncing` whose
`last_indexed_at` is more than 2 minutes old, the periodic sync run resets
its status to `completed` and queues it for sync. -/
theorem stale_syncing_recovered (now : Int) (projects : List ProjectRow)
    (p : ProjectRow) (t : Int) (hmem : p ∈ projects)
    (hstatus : p.indexing_status = "syncing") (hidx : p.is_indexed = true)
    (hlast : p.last_indexed_at = some t) (ht : t < now - 120) :
    { p with indexing_status := "completed" }
        ∈ (syncAllIndexedProjects now projects).1
      ∧ p.id ∈ (syncAllIndexedProjects now projects).2 := by
  have hstale : isStaleSyncing now p = true := by
    simp [isStaleSyncing, hstatus, hidx, hlast, ht]
  constructor
  · exact List.mem_map.mpr ⟨p, hmem, by rw [if_pos hstale]⟩
  · refine List.mem_append.mpr (Or.inr ?_)
    exact List.mem_map.mpr ⟨p, List.mem_filter.mpr ⟨hmem, hstale⟩, rfl⟩

def stuckIndexedProject : ProjectRow :=
  ⟨6, 60, true, false, "syncing", none, some 0, some "abc"⟩

/-- C7 (witness): an indexed stale `syncing` project is recovered. -/
theorem stale_syncing_recovered_witness :
    { stuckIndexedProject with indexing_status := "completed" }
        ∈ (syncAllIndexedProjects 1000 [stuckIndexedProject]).1
      ∧ stuckIndexedProject.id ∈ (syncAllIndexedProjects 1000 [stuckIndexedProject]).2 :=
  stale_syncing_recovered 1000 [stuckIndexedProject] stuckIndexedProject 0
    (List.mem_singleton.mpr rfl) rfl rfl rfl (by decide)

/-! ### The three status-update helpers (C9). -/

/-- `update_project_status` in `backend/tasks/sync.py`: `completed` sets
`is_indexed` and `last_indexed_at`; `error` keeps `is_indexed` as-is. -/
def updateProjectStatusSyncTask (now : Int) (status : String)
    (error : Option String) (p : ProjectRow) : ProjectRow :=
  if status = "completed" then
    { p with indexing_status := status, indexing_error := error,
             is_indexed := true, last_indexed_at := some now }
  else
    { p with indexing_status := status, indexing_error := error }

/-- `update_project_status` in `backend/tasks/indexing.py`: additionally
clears `is_indexed` on `error`. -/
def updateProjectStatusIndexingTask (now : Int) (status : String)
    (error : Option String) (p : ProjectRow) : ProjectRow :=
  if status = "completed" then
    { p with indexing_status := status, indexing_error := error,
             is_indexed := true, last_indexed_at := some now }
  else if status = "error" then
    { p with indexing_status := status, indexing_error := error,
             is_indexed := false }
  else
    { p with indexing_status := status, indexing_error := error }

/-- `ProjectRepository.update_status` in `backend/db/repositories.py`. -/
def updateProjectStatusRepo (now : Int) (status : String)
    (error : Option String) (p : ProjectRow) : ProjectRow :=
  if status = "completed" then
    { p with indexing_status := status, indexing_error := error,
             is_indexed := true, last_indexed_at := some now }
  else
    { p with indexing_status := status, indexing_error := error }

/-- The §3 invariant `is_indexed = true ⇒ last_indexed_at ≠ null`. -/
def statusInvariant (p : ProjectRow) : Prop :=
  p.is_indexed = true → p.last_indexed_at ≠ none

instance (p : ProjectRow) : Decidable (statusInvariant p) := by
  unfold statusInvariant
  infer_instance

/-- C9: each of the three status-update helpers preserves
`is_indexed ⇒ last_indexed_at ≠ null`; a transition to `completed` sets
`is_indexed` and `last_indexed_at` together, and none of them turns
`is_indexed` on without stamping `last_indexed_at`. -/
theorem status_updates_preserve_indexed_invariant (now : Int) (status : String)
    (error : Option String) (p : ProjectRow) (hinv : statusInvariant p) :
    statusInvariant (updateProjectStatusSyncTask now status error p)
      ∧ statusInvariant (updateProjectStatusIndexingTask now status error p)
      ∧ statusInvariant (updateProjectStatusRepo now status error p)
      ∧ (status = "completed" →
          (updateProjectStatusSyncTask now status error p).is_indexed = true
            ∧ (updateProjectStatusSyncTask now status error p).last_indexed_at
                = some now
            ∧ (updateProjectStatusIndexingTask now status error p).is_indexed = true
            ∧ (updateProjectStatusIndexingTask now status error p).last_indexed_at
                = some now
            ∧ (updateProjectStatusRepo now status error p).is_indexed = true
            ∧ (updateProjectStatusRepo now status error p).last_indexed_at
                = some now)
      ∧ ((updateProjectStatusSyncTask now status error p).is_indexed = true →
          p.is_indexed = true
            ∨ (updateProjectStatusSyncTask now status error p).last_indexed_at
                = some now)
      ∧ ((updateProjectStatusIndexingTask now status error p).is_indexed = true →
          p.is_indexed = true
            ∨ (updateProjectStatusIndexingTask now status error p).last_indexed_at
                = some now)
      ∧ ((updateProjectStatusRepo now status error p).is_indexed = true →
          p.is_indexed = true
            ∨ (updateProjectStatusRepo now status error p).last_indexed_at
                = some now) := by
  by_cases hc : status = "completed"
  · subst hc
    refine ⟨?_, ?_, ?_, ?_, ?_, ?_, ?_⟩ <;>
      simp [updateProjectStatusSyncTask, updateProjectStatusIndexingTask,
        updateProjectStatusRepo, statusInvariant]
  · by_cases he : status = "error"
    · subst he
      refine ⟨?_, ?_, ?_, ?_, ?_, ?_, ?_⟩ <;>
        simp [updateProjectStatusSyncTask, updateProjectStatusIndexingTask,
          updateProjectStatusRepo, statusInvariant, hinv] <;>
        first
          | exact hinv
          | (intro h; exact Or.inl h)
    · refine ⟨?_, ?_, ?_, ?_, ?_, ?_, ?_⟩ <;>
        simp [updateProjectStatusSyncTask, updateProjectStatusIndexingTask,
          updateProjectStatusRepo, statusInvariant, hc, he, hinv] <;>
        first
          | exact hinv
          | (intro h; exact Or.inl h)

def demoPendingProject : ProjectRow :=
  ⟨9, 90, false, false, "pending", none, none, none⟩

/-- C9 (witness): the invariant checked across a concrete `completed`
transition. -/
theorem status_updates_invariant_witness :
    statusInvariant
        (updateProjectStatusSyncTask 77 "completed" none demoPendingProject)
      ∧ (updateProjectStatusSyncTask 77 "completed" none
          demoPendingProject).last_indexed_at = some 77 :=
  ⟨(status_updates_preserve_indexed_invariant 77 "completed" none
      demoPendingProject (by decide)).1,
   ((status_updates_preserve_indexed_invariant 77 "completed" none
      demoPendingProject (by decide)).2.2.2.1 rfl).2.1⟩

/-! ### `sync_readme` (`backend/tasks/sync.py`): the README content-hash
comparison.  `content_hash = hashlib.sha256(content.encode()).hexdigest()` is
a 64-character hex string; the manifest stores `int(content_hash[:8], 16)` in
the `item_iid` slot. -/

structure IndexedItemRow where
  project_id : Nat
  item_type : String
  item_id : Nat
  item_iid : Option Nat
  qdrant_point_ids : List String
deriving DecidableEq

/-- `old_hash = str(existing.item_iid) if existing and existing.item_iid
else None` (note the Python truthiness: `item_iid` equal to `0` or `None`
gives `None`). -/
def readmeOldHash (existing : Option IndexedItemRow) : Option String :=
  match existing with
  | some row =>
    match row.item_iid with
    | some iid => if iid ≠ 0 then some (pyStrNat iid) else none
    | none => none
  | none => none

/-- `int(c, 16)` for a hex digit. -/
def hexDigitVal (c : Char) : Nat :=
  if c.isDigit then c.toNat - 48
  else if 'a' ≤ c ∧ c ≤ 'f' then c.toNat - 87
  else if 'A' ≤ c ∧ c ≤ 'F' then c.toNat - 55
  else 0

/-- `int(s, 16)`. -/
def hexVal (s : String) : Nat :=
  s.data.foldl (fun a c => a * 16 + hexDigitVal c) 0

/-- The skip test of `sync_readme`: `old_hash == content_hash`. -/
def syncReadmeSkips (existing : Option IndexedItemRow) (contentHash : String) :
    Bool :=
  readmeOldHash existing == some contentHash

structure ReadmeSyncOutcome where
  readme_updated : Bool
  deletedPointIds : List String
  row : Option IndexedItemRow
deriving DecidableEq

/-- The manifest and vector effects of `sync_readme` once a non-empty README
with hex digest `contentHash` has been fetched and chunked into points with
ids `newPointIds` (non-empty): skip when the hash "matches", otherwise delete
the old point ids and store the new ones together with
`int(content_hash[:8], 16)`. -/
def syncReadmeAction (project_id gitlab_id : Nat)
    (existing : Option IndexedItemRow) (contentHash : String)
    (newPointIds : List String) : ReadmeSyncOutcome :=
  if syncReadmeSkips existing contentHash then
    ⟨false, [], existing⟩
  else
    match existing with
    | some row =>
      ⟨true, row.qdrant_point_ids,
       some { row with qdrant_point_ids := newPointIds,
                       item_iid := some (hexVal (contentHash.take 8)) }⟩
    | none =>
      ⟨true, [],
       some ⟨project_id, "readme", gitlab_id,
             some (hexVal (contentHash.take 8)), newPointIds⟩⟩

theorem decDigitsAux_length_le :
    ∀ fuel n k, n < 10 ^ k → 1 ≤ k → (decDigitsAux fuel n).length ≤ k := by
  intro fuel
  induction fuel with
  | zero =>
    intro n k _ hk
    exact hk
  | succ m ih =>
    intro n k hn hk
    simp only [decDigitsAux]
    by_cases h : n < 10
    · rw [if_pos h]
      exact hk
    · rw [if_neg h]
      have hk2 : 2 ≤ k := by
        by_contra hlt
        have hk1 : k = 1 := by omega
        subst hk1
        rw [pow_one] at hn
        omega
      have hdiv : n / 10 < 10 ^ (k - 1) := by
        have h10 : (0:Nat) < 10 := by norm_num
        rw [Nat.div_lt_iff_lt_mul h10]
        have : 10 ^ (k - 1) * 10 = 10 ^ k := by
          rw [← pow_succ]
          congr 1
          omega
        omega
      have := ih (n / 10) (k - 1) hdiv (by omega)
      simp only [List.length_append, List.length_cons, List.length_nil]
      omega

theorem pyStrNat_length_le (n : Nat) (h : n < 10 ^ 10) :
    (pyStrNat n).length ≤ 10 :=
  decDigitsAux_length_le n n 10 h (by norm_num)

/-- C2 (the code never skips): for every existing readme manifest row, the
comparison `old_hash == content_hash` compares the decimal rendering of the
stored 32-bit integer (at most 10 characters) with the full 64-character hex
digest, so it is always false and `sync_readme` always deletes the row's old
point ids and upserts new ones — even when the README content is unchanged. -/
theorem sync_readme_never_skips (pid gid : Nat) (existing : IndexedItemRow)
    (iid : Nat) (contentHash : String) (newPointIds : List String)
    (hiid : existing.item_iid = some iid) (hbound : iid < 4294967296)
    (hlen : contentHash.length = 64) :
    syncReadmeSkips (some existing) contentHash = false
      ∧ syncReadmeAction pid gid (some existing) contentHash newPointIds
          = ⟨true, existing.qdrant_point_ids,
             some { existing with
                      qdrant_point_ids := newPointIds,
                      item_iid := some (hexVal (contentHash.take 8)) }⟩ := by
  have hskip : syncReadmeSkips (some existing) contentHash = false := by
    simp only [syncReadmeSkips, readmeOldHash, hiid]
    by_cases hz : iid ≠ 0
    · rw [if_pos hz]
      rw [beq_eq_false_iff_ne]
      intro heq
      have hinj : pyStrNat iid = contentHash := by injection heq
      have hlen2 : (pyStrNat iid).length ≤ 10 :=
        pyStrNat_length_le iid (by omega)
      rw [hinj, hlen] at hlen2
      omega
    · rw [if_neg hz]
      rfl
  refine ⟨hskip, ?_⟩
  simp only [syncReadmeAction, hskip]
  rfl

/-- SHA-256 of `"hello"`. -/
def helloDigest : String :=
  "2cf24dba5fb0a30e26e83b2ac5b9e29e1b161e5c1fa7425e73043362938b9824"

/-- The readme manifest row after `"hello"` was indexed: `item_iid` holds
`int("2cf24dba", 16)`. -/
def helloReadmeRow : IndexedItemRow :=
  ⟨1, "readme", 42, some (hexVal "2cf24dba"), ["oldpoint"]⟩

/-- C2 (witness): re-fetching the unchanged `"hello"` README still re-indexes
(the skip comparison fails although the stored prefix hash matches the
content). -/
theorem sync_readme_never_skips_witness :
    syncReadmeSkips (some helloReadmeRow) helloDigest = false
      ∧ syncReadmeAction 1 42 (some helloReadmeRow) helloDigest ["newpoint"]
          = ⟨true, ["oldpoint"],
             some { helloReadmeRow with
                      qdrant_point_ids := ["newpoint"],
                      item_iid := some (hexVal (helloDigest.take 8)) }⟩ :=
  sync_readme_never_skips 1 42 helloReadmeRow (hexVal "2cf24dba") helloDigest
    ["newpoint"] rfl (by decide) (by decide)

end GitlabChat
